import Mathlib

/-!
# Verification of the setup-cuda version engine

A shallow embedding of the version discovery, resolution and
installer-location engine of the `setup-cuda` action
(`src/cuda.ts`, `src/utils.ts`, `src/const.ts`), together with proofs
about it.

Conventions of the embedding:

* Strings are Lean `String`s; the character-level helpers below
  re-implement, by structural recursion, exactly the JavaScript string
  primitives the source uses (`split('.')`, `startsWith`, `endsWith`,
  one-character-separator semantics included), so that every definition
  evaluates inside the kernel.
* JavaScript numeric coercions are modelled on the domain the program
  feeds them: version components that are plain digit strings parse to
  their value, anything else behaves as the source's coercion makes it
  behave there (`Number(x) || 0` yields `0` for non-numeric `x`;
  `parseInt` yields the leading digit run, or NaN — modelled as `none` —
  when there is none).  Exotic numeric literal forms (signs, exponents,
  hex, whitespace) are outside the modelled domain.
* The one `async` network call inside `getCudaInstallerUrl`
  (`fetchMd5sum`) is passed in as a parameter of type
  `Except String (List (String × String))`: either the transport error
  message the fetch would throw, or the parsed checksum record as an
  association list in JavaScript `Object.entries` iteration order.
* Fallible code returns `Except CudaError String`; the JavaScript
  `TypeError` raised by reading a field of `CUDA_LINKS[version]` when
  the key is absent is modelled by the explicit error
  `CudaError.missingTableEntry`.
-/

/-- The digits of a character list read as a base-10 natural number
(JavaScript digit-string numeric value). -/
def digitsToNat (ds : List Char) : Nat :=
  ds.foldl (fun n c => n * 10 + (c.toNat - 48)) 0

/-- JavaScript `s.split('.')` on the character level: single-character
separator semantics, so `"" ↦ [""]`, `"a." ↦ ["a",""]`, `".a" ↦ ["","a"]`. -/
def splitOnDotChars : List Char → List (List Char)
  | [] => [[]]
  | c :: cs =>
    let rest := splitOnDotChars cs
    if c = '.' then [] :: rest
    else
      match rest with
      | r :: rs => (c :: r) :: rs
      | [] => [[c]]

/-- JavaScript `Number(component) || 0` as used by `compareVersions` in
`src/utils.ts`: a digit string is its numeric value, everything else
(empty string included, since `Number("") = 0`) contributes `0`. -/
def jsNumberOr0 (cs : List Char) : Int :=
  if cs.all Char.isDigit then (digitsToNat cs : Int) else 0

/-- JavaScript `parseInt(s, 10)` on the modelled domain: the leading run
of digits read as a number, or `none` (NaN) when the string starts with
a non-digit or is empty. -/
def jsParseIntNat (cs : List Char) : Option Nat :=
  let ds := cs.takeWhile Char.isDigit
  if ds.isEmpty then none else some (digitsToNat ds)

/-- JavaScript `s.startsWith(p)`. -/
def jsStartsWith (s p : String) : Bool :=
  p.toList.isPrefixOf s.toList

/-- JavaScript `s.endsWith(p)`. -/
def jsEndsWith (s p : String) : Bool :=
  p.toList.isSuffixOf s.toList

/-- The version components of a string, as the integers
`compareVersions` compares: `a.split('.').map(Number)` with the `|| 0`
coercion applied. -/
def versionComponents (s : String) : List Int :=
  (splitOnDotChars s.toList).map jsNumberOr0

/-- Tail of the `compareVersions` loop once the first component list is
exhausted: each remaining component `y` of the second list is compared
against the padding value `0`, so the result is the negation of the
first nonzero component, else `0`. -/
def negFirstNonzero : List Int → Int
  | [] => 0
  | y :: ys => if y ≠ 0 then -y else negFirstNonzero ys

/-- The comparison loop of `compareVersions` (`src/utils.ts` lines
11–18): walk both component lists in parallel, padding the shorter one
with `0` (`aParts[i] || 0`), and return the signed difference of the
first differing pair, else `0`. -/
def compareLoop : List Int → List Int → Int
  | [], ys => negFirstNonzero ys
  | x :: xs, [] => if x ≠ 0 then x else compareLoop xs []
  | x :: xs, y :: ys => if x ≠ y then x - y else compareLoop xs ys

/-- `compareVersions` from `src/utils.ts`: negative if `a < b`, zero if
equal, positive if `a > b`, by numeric comparison of dot-separated
components. -/
def compareVersions (a b : String) : Int :=
  compareLoop (versionComponents a) (versionComponents b)

/-- The boolean "less or equal" order induced by `compareVersions`, the
comparator handed to JavaScript `Array.prototype.sort`. -/
def versionLe (a b : String) : Bool :=
  decide (compareVersions a b ≤ 0)

/-- `sortVersions` from `src/utils.ts`: stable ascending sort by
`compareVersions` (ES2019 `Array.prototype.sort` is stable; `mergeSort`
is its faithful model). -/
def sortVersions (versions : List String) : List String :=
  versions.mergeSort versionLe

/-- One insertion step of JavaScript `Set`: add at the end unless
already present. -/
def jsSetAdd (l : List String) (x : String) : List String :=
  if x ∈ l then l else l ++ [x]

/-- JavaScript `[...new Set(l)]`: deduplicate keeping first occurrences,
in insertion order. -/
def jsSetList (l : List String) : List String :=
  l.foldl jsSetAdd []

/-- `START_SUPPORTED_CUDA_VERSION` from `src/const.ts`. -/
def START_SUPPORTED_CUDA_VERSION : String := "10.0"

/-- `OLD_CUDA_VERSIONS` from `src/const.ts`. -/
def OLD_CUDA_VERSIONS : List String :=
  ["10.0", "10.1", "10.1.1", "10.1.2", "10.2"]

/-- `OS` from `src/os_arch.ts` (the two members used by `src/cuda.ts`). -/
inductive OS
  | LINUX
  | WINDOWS
deriving DecidableEq

/-- `Arch` from `src/os_arch.ts` (the two members used by `src/cuda.ts`). -/
inductive Arch
  | X86_64
  | ARM64_SBSA
deriving DecidableEq

/-- `CudaLink` from `src/const.ts`. -/
structure CudaLink where
  md5sumUrl : String
  linuxX86Url : String
  linuxArm64Url : String
  windowsUrl : String
deriving DecidableEq

/-- `CUDA_LINKS` from `src/const.ts`: the static legacy link table,
as the partial map its five-key record literal denotes
(`version in CUDA_LINKS` is `(CUDA_LINKS version).isSome`). -/
def CUDA_LINKS (version : String) : Option CudaLink :=
  if version = "10.0" then
    some ⟨"https://developer.download.nvidia.com/compute/cuda/10.0/Prod/docs/sidebar/md5sum.txt",
          "http://developer.download.nvidia.com/compute/cuda/10.0/Prod/patches/1/cuda_10.0.130.1_linux.run",
          "",
          "https://developer.nvidia.com/compute/cuda/10.0/Prod/local_installers/cuda_10.0.130_411.31_win10"⟩
  else if version = "10.1" then
    some ⟨"https://developer.download.nvidia.com/compute/cuda/10.1/Prod/docs/sidebar/md5sum.txt",
          "https://developer.nvidia.com/compute/cuda/10.1/Prod/local_installers/cuda_10.1.105_418.39_linux.run",
          "",
          "https://developer.nvidia.com/compute/cuda/10.1/Prod/local_installers/cuda_10.1.105_418.96_win10.exe"⟩
  else if version = "10.1.1" then
    some ⟨"https://developer.download.nvidia.com/compute/cuda/10.1/Prod/docs2/sidebar/md5sum-2.txt",
          "https://developer.nvidia.com/compute/cuda/10.1/Prod/local_installers/cuda_10.1.168_418.67_linux.run",
          "",
          "https://developer.nvidia.com/compute/cuda/10.1/Prod/local_installers/cuda_10.1.168_425.25_win10.exe"⟩
  else if version = "10.1.2" then
    some ⟨"https://developer.download.nvidia.com/compute/cuda/10.1/Prod/docs3/sidebar/md5sum.txt",
          "https://developer.download.nvidia.com/compute/cuda/10.1/Prod/local_installers/cuda_10.1.243_418.87.00_linux.run",
          "",
          "https://developer.download.nvidia.com/compute/cuda/10.1/Prod/local_installers/cuda_10.1.243_426.00_win10.exe"⟩
  else if version = "10.2" then
    some ⟨"https://developer.download.nvidia.com/compute/cuda/10.2/Prod/docs/sidebar/md5sum2.txt",
          "https://developer.download.nvidia.com/compute/cuda/10.2/Prod/patches/2/cuda_10.2.2_linux.run",
          "",
          "https://developer.download.nvidia.com/compute/cuda/10.2/Prod/local_installers/cuda_10.2.89_441.22_win10.exe"⟩
  else none

/-- `getDownloadUrl` from `src/cuda.ts`. -/
def getDownloadUrl (version dir filename : String) : String :=
  "https://developer.download.nvidia.com/compute/cuda/" ++ version ++ "/" ++ dir ++ "/" ++ filename

/-- `parseInt(version.split('.')[0])` from `src/cuda.ts`, compared with
10 as JavaScript does (`NaN <= 10` is false, so a non-numeric major
yields `false`). -/
def majorVersionLe10 (version : String) : Bool :=
  match jsParseIntNat ((splitOnDotChars version.toList).headD []) with
  | some n => n ≤ 10
  | none => false

/-- The joined first components of `parts.slice(0, 2).join('.')`. -/
def dotIntercalate : List (List Char) → List Char
  | [] => []
  | [p] => p
  | p :: ps => p ++ '.' :: dotIntercalate ps

/-- `parts.join('.')` back into a string. -/
def joinDots (parts : List (List Char)) : String :=
  ⟨dotIntercalate parts⟩

/-- `normalizeCudaVersion` from `src/cuda.ts`: for major version ≤ 10
keep only `major.minor`; for ≥ 11 (or a NaN major) return the input
unchanged. -/
def normalizeCudaVersion (version : String) : String :=
  let parts := splitOnDotChars version.toList
  match jsParseIntNat (parts.headD []) with
  | none => version
  | some major =>
    if major ≤ 10 then joinDots (parts.take 2)
    else version

/-- The merge step of `fetchAvailableCudaVersions` from `src/cuda.ts`,
parameterised by the three version lists the concurrent fetches
returned: union with `OLD_CUDA_VERSIONS` into a `Set`, sort, then
filter to versions `≥ START_SUPPORTED_CUDA_VERSION`. -/
def fetchAvailableCudaVersions
    (redistribVersions archiveVersions opensourceVersions : List String) : List String :=
  let allVersions := jsSetList
    (redistribVersions ++ archiveVersions ++ opensourceVersions ++ OLD_CUDA_VERSIONS)
  let versions := sortVersions allVersions
  versions.filter (fun version => 0 ≤ compareVersions version START_SUPPORTED_CUDA_VERSION)

/-- The matching logic of `findCudaVersion` from `src/cuda.ts`,
parameterised by the catalog `fetchAvailableCudaVersions` produced:
`latest` / exact / prefix / not-found (`versions[versions.length - 1]`
on the empty array is `undefined`, i.e. `none`). -/
def findCudaVersion (versions : List String) (inputVersion : String) : Option String :=
  if inputVersion = "latest" then
    versions.getLast?
  else if inputVersion ∈ versions then
    some inputVersion
  else
    let pfx := inputVersion ++ "."
    let matchingVersions := versions.filter (fun v => jsStartsWith v pfx)
    if matchingVersions.isEmpty then none
    else matchingVersions.getLast?

/-- The error outcomes of `getCudaInstallerUrl` from `src/cuda.ts`.
`missingTableEntry` models the `TypeError` raised by
`CUDA_LINKS[version].linuxX86Url` / `.windowsUrl` when `version` is not
a key of the table. -/
inductive CudaError
  | transport (msg : String)
  | unsupportedVersion (version : String)
  | unsupportedPlatform (version : String)
  | missingTableEntry (version : String)
  | noMatchingInstaller (version : String) (os : OS) (arch : Arch)
deriving DecidableEq

deriving instance DecidableEq for Except

/-- Whether an error is the modelled missing-legacy-table-entry crash. -/
def CudaError.isMissingTableEntry : CudaError → Bool
  | .missingTableEntry _ => true
  | _ => false

/-- `filename.endsWith('_windows.exe')`. -/
def isWindowsExe (filename : String) : Bool :=
  jsEndsWith filename "_windows.exe"

/-- `filename.endsWith('_win10.exe')`. -/
def isWin10Exe (filename : String) : Bool :=
  jsEndsWith filename "_win10.exe"

/-- The Windows filename scan of `getCudaInstallerUrl` (`src/cuda.ts`
lines 319–331): break at the first `_windows.exe` filename; otherwise
keep overwriting the `_win10.exe` candidate (the accumulator) and
return the final one when the scan completes. -/
def windowsScanLoop : List String → Option String → Option String
  | [], win10Filename => win10Filename
  | filename :: rest, win10Filename =>
    if isWindowsExe filename then some filename
    else windowsScanLoop rest (if isWin10Exe filename then some filename else win10Filename)

/-- `windowsFilename || win10Filename` after the Windows scan, starting
from both candidates `undefined`. -/
def windowsTarget (filenames : List String) : Option String :=
  windowsScanLoop filenames none

/-- Drop an exact literal from the front of a character list, or fail. -/
def dropLiteral : List Char → List Char → Option (List Char)
  | [], cs => some cs
  | _ :: _, [] => none
  | p :: ps, c :: cs => if p = c then dropLiteral ps cs else none

/-- Consume one-or-more digits (maximal munch, which is complete here
because every regex token following a `\d+` is a non-digit). -/
def eatDigits1 : List Char → Option (List Char)
  | [] => none
  | c :: cs => if c.isDigit then some (cs.dropWhile Char.isDigit) else none

/-- Match the driver-version part `\d+\.\d+(\.\d+)?` of the Linux
installer regex followed by the given literal suffix; the optional
group is tried both taken and skipped, covering regex backtracking. -/
def driverThenSuffix (suffix : List Char) (cs : List Char) : Bool :=
  match eatDigits1 cs with
  | none => false
  | some cs1 =>
    match cs1 with
    | '.' :: cs2 =>
      match eatDigits1 cs2 with
      | none => false
      | some cs3 =>
        (match cs3 with
         | '.' :: cs4 =>
           match eatDigits1 cs4 with
           | some cs5 => suffix.isPrefixOf cs5
           | none => false
         | _ => false)
        || suffix.isPrefixOf cs3
    | _ => false

/-- The unanchored Linux installer filename regex of
`getCudaInstallerUrl` (`src/cuda.ts` lines 297–308):
`cuda_<version>_\d+\.\d+(\.\d+)?_linux.run`, with `_linux_sbsa.run`
instead for the ARM64 server architecture.  The version is matched
literally, which is exact for the dot-and-digit version strings the
program handles (the source escapes the dots before building the
regex). -/
def linuxRunMatch (version : String) (sbsa : Bool) (filename : String) : Bool :=
  let suffix := (if sbsa then "_linux_sbsa.run" else "_linux.run").toList
  (filename.toList.tails).any (fun cs =>
    match dropLiteral ("cuda_".toList ++ version.toList ++ ['_']) cs with
    | some rest => driverThenSuffix suffix rest
    | none => false)

/-- The modern dynamic path of `getCudaInstallerUrl` (`src/cuda.ts`
lines 291–338): propagate a failed checksum fetch as a transport error,
otherwise scan the manifest filenames — first Linux regex match, or the
Windows preference scan — and return the `local_installers` download
URL, else the no-matching-installer error. -/
def modernPath (version : String) (os : OS) (arch : Arch)
    (md5Fetch : Except String (List (String × String))) : Except CudaError String :=
  match md5Fetch with
  | .error msg => .error (.transport msg)
  | .ok md5sums =>
    let filenames := md5sums.map Prod.fst
    let targetFilename : Option String :=
      match os with
      | OS.LINUX =>
        let sbsa := match arch with
          | Arch.X86_64 => false
          | Arch.ARM64_SBSA => true
        filenames.find? (fun f => linuxRunMatch version sbsa f)
      | OS.WINDOWS => windowsTarget filenames
    match targetFilename with
    | some filename => .ok (getDownloadUrl version "local_installers" filename)
    | none => .error (.noMatchingInstaller version os arch)

/-- `src/cuda.ts` lines 283–338: the legacy fallback (direct table
field access for major ≤ 10 on Linux/x86-64 or Windows, crashing —
`missingTableEntry` — when the key is absent) followed by the modern
dynamic path. -/
def legacyFallbackOrModern (version : String) (os : OS) (arch : Arch)
    (md5Fetch : Except String (List (String × String))) : Except CudaError String :=
  if majorVersionLe10 version = true ∧ os = OS.LINUX ∧ arch = Arch.X86_64 then
    match CUDA_LINKS version with
    | some link => .ok link.linuxX86Url
    | none => .error (.missingTableEntry version)
  else if majorVersionLe10 version = true ∧ os = OS.WINDOWS then
    match CUDA_LINKS version with
    | some link => .ok link.windowsUrl
    | none => .error (.missingTableEntry version)
  else
    modernPath version os arch md5Fetch

/-- `getCudaInstallerUrl` from `src/cuda.ts`, with the checksum-manifest
fetch abstracted into the `md5Fetch` parameter (either the transport
error message the fetch would throw, or the parsed record in iteration
order): support check, legacy Linux/ARM64 gate, static legacy table,
then `legacyFallbackOrModern`. -/
def getCudaInstallerUrl (version : String) (os : OS) (arch : Arch)
    (md5Fetch : Except String (List (String × String))) : Except CudaError String :=
  if compareVersions version START_SUPPORTED_CUDA_VERSION < 0 then
    .error (.unsupportedVersion version)
  else if majorVersionLe10 version = true ∧ os = OS.LINUX ∧ arch = Arch.ARM64_SBSA then
    .error (.unsupportedPlatform version)
  else
    match CUDA_LINKS version with
    | some link =>
      if os = OS.LINUX ∧ arch = Arch.X86_64 ∧ link.linuxX86Url ≠ "" then
        .ok link.linuxX86Url
      else if os = OS.LINUX ∧ arch = Arch.ARM64_SBSA ∧ link.linuxArm64Url ≠ "" then
        .ok link.linuxArm64Url
      else if os = OS.WINDOWS ∧ link.windowsUrl ≠ "" then
        .ok link.windowsUrl
      else
        legacyFallbackOrModern version os arch md5Fetch
    | none => legacyFallbackOrModern version os arch md5Fetch

/-! ## Lemmas about the comparator -/

theorem negFirstNonzero_eq_neg_compareLoop (ys : List Int) :
    negFirstNonzero ys = -compareLoop ys [] := by
  induction ys with
  | nil => simp [negFirstNonzero, compareLoop]
  | cons y ys ih =>
    simp only [negFirstNonzero, compareLoop]
    split <;> omega

theorem compareLoop_antisymm (xs : List Int) : ∀ ys,
    compareLoop ys xs = -compareLoop xs ys := by
  induction xs with
  | nil =>
    intro ys
    have h := negFirstNonzero_eq_neg_compareLoop ys
    simp only [compareLoop] at *
    omega
  | cons x xs ih =>
    intro ys
    cases ys with
    | nil =>
      have h := negFirstNonzero_eq_neg_compareLoop (x :: xs)
      simp only [compareLoop] at *
      omega
    | cons y ys =>
      have h := ih ys
      simp only [compareLoop]
      split <;> split <;> omega

theorem compareLoop_trans_left_nil (xs : List Int) : ∀ zs,
    compareLoop xs [] ≤ 0 → negFirstNonzero zs ≤ 0 → compareLoop xs zs ≤ 0 := by
  induction xs with
  | nil =>
    intro zs _ h2
    simpa [compareLoop] using h2
  | cons x xs ih =>
    intro zs h1 h2
    cases zs with
    | nil => exact h1
    | cons z zs =>
      simp only [compareLoop] at h1 ⊢
      simp only [negFirstNonzero] at h2
      have hih := ih zs
      split_ifs at h1 h2 ⊢ <;> omega

theorem negFirstNonzero_trans (ys : List Int) : ∀ zs,
    negFirstNonzero ys ≤ 0 → compareLoop ys zs ≤ 0 → negFirstNonzero zs ≤ 0 := by
  induction ys with
  | nil =>
    intro zs _ h2
    simpa [compareLoop] using h2
  | cons y ys ih =>
    intro zs h1 h2
    cases zs with
    | nil => simp [negFirstNonzero]
    | cons z zs =>
      simp only [negFirstNonzero] at h1 ⊢
      simp only [compareLoop] at h2
      have hih := ih zs
      split_ifs at h1 h2 ⊢ <;> omega

theorem compareLoop_trans (xs : List Int) : ∀ ys zs,
    compareLoop xs ys ≤ 0 → compareLoop ys zs ≤ 0 → compareLoop xs zs ≤ 0 := by
  induction xs with
  | nil =>
    intro ys zs h1 h2
    simp only [compareLoop] at h1 ⊢
    exact negFirstNonzero_trans ys zs h1 h2
  | cons x xs ih =>
    intro ys zs h1 h2
    cases ys with
    | nil =>
      simp only [compareLoop] at h2
      exact compareLoop_trans_left_nil (x :: xs) zs h1 h2
    | cons y ys =>
      cases zs with
      | nil =>
        simp only [compareLoop] at h1 h2 ⊢
        have hih := ih ys []
        simp only [compareLoop] at hih
        split_ifs at h1 h2 ⊢ <;> omega
      | cons z zs =>
        simp only [compareLoop] at h1 h2 ⊢
        have hih := ih ys zs
        split_ifs at h1 h2 ⊢ <;> omega

theorem versionLe_trans (a b c : String) :
    versionLe a b → versionLe b c → versionLe a c := by
  simp only [versionLe, decide_eq_true_eq, compareVersions]
  exact compareLoop_trans _ _ _

theorem versionLe_total (a b : String) : versionLe a b || versionLe b a := by
  have h := compareLoop_antisymm (versionComponents a) (versionComponents b)
  simp only [versionLe, Bool.or_eq_true, decide_eq_true_eq, compareVersions]
  omega

/-! ## Lemmas about the JavaScript `Set` model -/

theorem mem_jsSetAdd (acc : List String) (a x : String) :
    x ∈ jsSetAdd acc a ↔ x ∈ acc ∨ x = a := by
  unfold jsSetAdd
  split <;> rename_i ha <;> simp [List.mem_append]
  exact fun h => h ▸ ha

theorem mem_foldl_jsSetAdd (l : List String) : ∀ (acc : List String) (x : String),
    x ∈ l.foldl jsSetAdd acc ↔ x ∈ acc ∨ x ∈ l := by
  induction l with
  | nil => simp
  | cons a l ih =>
    intro acc x
    rw [List.foldl_cons, ih, mem_jsSetAdd, List.mem_cons]
    tauto

theorem nodup_foldl_jsSetAdd (l : List String) : ∀ (acc : List String),
    acc.Nodup → (l.foldl jsSetAdd acc).Nodup := by
  induction l with
  | nil => exact fun _ h => h
  | cons a l ih =>
    intro acc hacc
    simp only [List.foldl_cons]
    apply ih
    unfold jsSetAdd
    split
    · exact hacc
    · simp [List.nodup_append, hacc, *]

theorem mem_jsSetList (l : List String) (x : String) :
    x ∈ jsSetList l ↔ x ∈ l := by
  simp [jsSetList, mem_foldl_jsSetAdd]

theorem nodup_jsSetList (l : List String) : (jsSetList l).Nodup :=
  nodup_foldl_jsSetAdd l [] List.nodup_nil

/-! ## Lemmas about `sortVersions` -/

theorem mem_sortVersions (l : List String) (x : String) :
    x ∈ sortVersions l ↔ x ∈ l := by
  simp [sortVersions]

theorem nodup_sortVersions (l : List String) (h : l.Nodup) :
    (sortVersions l).Nodup :=
  (List.mergeSort_perm l versionLe).nodup_iff.mpr h

theorem pairwise_sortVersions (l : List String) :
    (sortVersions l).Pairwise (fun a b => compareVersions a b ≤ 0) := by
  have h := List.sorted_mergeSort
    (fun a b c => versionLe_trans a b c) (fun a b => versionLe_total a b) l
  exact h.imp (by simp [versionLe])

/-! ## Lemmas about the merged catalog -/

theorem mem_fetchAvailableCudaVersions (r a o : List String) (v : String) :
    v ∈ fetchAvailableCudaVersions r a o ↔
      ((v ∈ r ∨ v ∈ a ∨ v ∈ o ∨ v ∈ OLD_CUDA_VERSIONS) ∧
        0 ≤ compareVersions v START_SUPPORTED_CUDA_VERSION) := by
  unfold fetchAvailableCudaVersions
  simp [List.mem_filter, mem_sortVersions, mem_jsSetList, List.mem_append, or_assoc]

theorem nodup_fetchAvailableCudaVersions (r a o : List String) :
    (fetchAvailableCudaVersions r a o).Nodup := by
  unfold fetchAvailableCudaVersions
  exact (nodup_sortVersions _ (nodup_jsSetList _)).filter _

theorem pairwise_fetchAvailableCudaVersions (r a o : List String) :
    (fetchAvailableCudaVersions r a o).Pairwise (fun x y => compareVersions x y ≤ 0) := by
  unfold fetchAvailableCudaVersions
  exact List.Pairwise.sublist (List.filter_sublist _) (pairwise_sortVersions _)

/-! ## Lemmas about the Windows filename scan -/

theorem windowsScanLoop_find (filenames : List String) :
    ∀ (acc : Option String) (f : String),
      filenames.find? isWindowsExe = some f → windowsScanLoop filenames acc = some f := by
  induction filenames with
  | nil => intro acc f h; simp at h
  | cons g rest ih =>
    intro acc f h
    rw [List.find?_cons] at h
    unfold windowsScanLoop
    by_cases hw : isWindowsExe g
    · simp only [hw, if_true] at h ⊢
      exact congrArg some (Option.some.inj h)
    · simp only [hw, Bool.false_eq_true, if_false] at h ⊢
      exact ih _ f h

theorem windowsScanLoop_no_find (filenames : List String)
    (h : filenames.find? isWindowsExe = none) :
    ∀ acc : Option String,
      windowsScanLoop filenames acc =
        match (filenames.filter isWin10Exe).getLast? with
        | some g => some g
        | none => acc := by
  induction filenames with
  | nil => intro acc; simp [windowsScanLoop]
  | cons g rest ih =>
    intro acc
    rw [List.find?_cons] at h
    have hw : isWindowsExe g = false := by
      by_contra hc
      simp only [Bool.not_eq_false] at hc
      simp [hc] at h
    rw [hw] at h
    simp only [Bool.false_eq_true, if_false] at h
    unfold windowsScanLoop
    rw [hw]
    simp only [Bool.false_eq_true, if_false]
    rw [ih h]
    rw [List.filter_cons]
    by_cases h10 : isWin10Exe g
    · simp only [h10, if_true]
      cases hl : (rest.filter isWin10Exe).getLast? with
      | some x =>
        have hne : rest.filter isWin10Exe ≠ [] := by
          intro hnil; rw [hnil] at hl; simp at hl
        cases hrest : rest.filter isWin10Exe with
        | nil => exact absurd hrest hne
        | cons b l =>
          rw [hrest] at hl
          rw [List.getLast?_cons_cons, hl]
      | none =>
        have : rest.filter isWin10Exe = [] := by
          simpa using hl
        rw [this]
        simp [h10]
    · simp [h10]

/-! ## Zero-padded pairing of component lists (the `|| 0` padding) -/

/-- The component lists paired up after padding the shorter one with
zeros to the length of the longer one. -/
def zipPad : List Int → List Int → List (Int × Int)
  | [], ys => ys.map (fun y => ((0 : Int), y))
  | x :: xs, [] => (x, 0) :: zipPad xs []
  | x :: xs, y :: ys => (x, y) :: zipPad xs ys

/-- The signed difference of the first differing pair, or `0` when no
pair differs. -/
def firstDiff (l : List (Int × Int)) : Int :=
  match l.find? (fun p => p.1 != p.2) with
  | some p => p.1 - p.2
  | none => 0

theorem firstDiff_cons (x y : Int) (rest : List (Int × Int)) :
    firstDiff ((x, y) :: rest) = if x ≠ y then x - y else firstDiff rest := by
  by_cases h : x = y
  · simp [firstDiff, List.find?_cons, h]
  · have hb : (x != y) = true := by simpa using h
    simp [firstDiff, List.find?_cons, hb, h]

theorem negFirstNonzero_eq_firstDiff (ys : List Int) :
    negFirstNonzero ys = firstDiff (ys.map fun y => ((0 : Int), y)) := by
  induction ys with
  | nil => simp [negFirstNonzero, firstDiff]
  | cons y ys ih =>
    rw [List.map_cons, firstDiff_cons]
    unfold negFirstNonzero
    rw [ih]
    by_cases h : y = 0 <;> simp [h]
    omega

theorem compareLoop_eq_firstDiff (xs : List Int) : ∀ ys,
    compareLoop xs ys = firstDiff (zipPad xs ys) := by
  induction xs with
  | nil =>
    intro ys
    simp only [compareLoop, zipPad]
    exact negFirstNonzero_eq_firstDiff ys
  | cons x xs ih =>
    intro ys
    cases ys with
    | nil =>
      simp only [compareLoop, zipPad, firstDiff_cons]
      rw [ih []]
      by_cases h : x = 0 <;> simp [h]
    | cons y ys =>
      simp only [compareLoop, zipPad, firstDiff_cons]
      rw [ih ys]

/-! ## Claim theorems -/

/-- C6: `compareVersions` splits both strings on ".", compares the
components pairwise as integers after padding the shorter sequence with
zeros, and returns the signed difference of the first differing pair
(or 0 when none differ); the comparison is numeric, not lexical
(`compare("10.1","10.1.0") == 0`, `compare("11.2","11.10") < 0`), and a
non-numeric component is treated as 0 rather than rejected. -/
theorem compareVersions_componentwise :
    (∀ a b : String,
        compareVersions a b =
          firstDiff (zipPad (versionComponents a) (versionComponents b)))
    ∧ compareVersions "10.1" "10.1.0" = 0
    ∧ compareVersions "11.2" "11.10" < 0
    ∧ versionComponents "11.x" = [11, 0]
    ∧ compareVersions "11.x" "11.0" = 0 :=
  ⟨fun a b => compareLoop_eq_firstDiff _ _, by decide, by decide, by decide, by decide⟩

/-- C1: `findCudaVersion` resolves a specifier against a catalog as a
four-case match — `"latest"` returns the catalog's last entry (none on
an empty catalog), an exact catalog member is returned unchanged,
otherwise the last catalog entry starting with `specifier + "."` is
returned, and otherwise the result is `none` (an absent value, not an
error). -/
theorem findCudaVersion_resolve_cases (versions : List String) (inputVersion : String) :
    (inputVersion = "latest" → findCudaVersion versions inputVersion = versions.getLast?)
    ∧ (inputVersion = "latest" → versions = [] →
        findCudaVersion versions inputVersion = none)
    ∧ (inputVersion ≠ "latest" → inputVersion ∈ versions →
        findCudaVersion versions inputVersion = some inputVersion)
    ∧ (inputVersion ≠ "latest" → inputVersion ∉ versions →
        findCudaVersion versions inputVersion =
          (versions.filter (fun v => jsStartsWith v (inputVersion ++ "."))).getLast?)
    ∧ (inputVersion ≠ "latest" → inputVersion ∉ versions →
        versions.filter (fun v => jsStartsWith v (inputVersion ++ ".")) = [] →
        findCudaVersion versions inputVersion = none) := by
  refine ⟨?_, ?_, ?_, ?_, ?_⟩
  · intro h
    simp [findCudaVersion, h]
  · intro h hv
    simp [findCudaVersion, h, hv]
  · intro h hv
    simp [findCudaVersion, h, hv]
  · intro h hv
    by_cases hm : (versions.filter (fun v => jsStartsWith v (inputVersion ++ "."))).isEmpty
    · rw [List.isEmpty_iff] at hm
      simp [findCudaVersion, h, hv, hm]
    · simp [findCudaVersion, h, hv, hm]
  · intro h hv hfil
    simp [findCudaVersion, h, hv, hfil]

/-- Witness for C1 at the spec's example catalog. -/
theorem findCudaVersion_resolve_cases_witness :
    findCudaVersion ["10.0", "10.1", "10.2", "11.0.1", "11.0.3"] "latest" = some "11.0.3"
    ∧ findCudaVersion ["10.0", "10.1", "10.2", "11.0.1", "11.0.3"] "11.0.1" = some "11.0.1"
    ∧ findCudaVersion ["10.0", "10.1", "10.2", "11.0.1", "11.0.3"] "10" = some "10.2"
    ∧ findCudaVersion ["10.0", "10.1", "10.2", "11.0.1", "11.0.3"] "11.0" = some "11.0.3"
    ∧ findCudaVersion ["10.0", "10.1", "10.2", "11.0.1", "11.0.3"] "9.9" = none := by
  have h1 := (findCudaVersion_resolve_cases ["10.0", "10.1", "10.2", "11.0.1", "11.0.3"]
    "latest").1 rfl
  have h2 := (findCudaVersion_resolve_cases ["10.0", "10.1", "10.2", "11.0.1", "11.0.3"]
    "11.0.1").2.2.1 (by decide) (by decide)
  have h3 := (findCudaVersion_resolve_cases ["10.0", "10.1", "10.2", "11.0.1", "11.0.3"]
    "10").2.2.2.1 (by decide) (by decide)
  have h4 := (findCudaVersion_resolve_cases ["10.0", "10.1", "10.2", "11.0.1", "11.0.3"]
    "11.0").2.2.2.1 (by decide) (by decide)
  have h5 := (findCudaVersion_resolve_cases ["10.0", "10.1", "10.2", "11.0.1", "11.0.3"]
    "9.9").2.2.2.2 (by decide) (by decide) (by decide)
  exact ⟨h1.trans (by decide), h2, h3.trans (by decide), h4.trans (by decide), h5⟩

/-- C5: the merged catalog is the union of the three scraped lists and
the static legacy list, filtered to versions at least the minimum
supported one; it has no duplicate entries and is sorted ascending
under the numeric comparator. -/
theorem fetchAvailableCudaVersions_catalog_invariants
    (redistribVersions archiveVersions opensourceVersions : List String) :
    (∀ v, v ∈ fetchAvailableCudaVersions redistribVersions archiveVersions opensourceVersions ↔
        ((v ∈ redistribVersions ∨ v ∈ archiveVersions ∨ v ∈ opensourceVersions ∨
            v ∈ OLD_CUDA_VERSIONS) ∧
          0 ≤ compareVersions v START_SUPPORTED_CUDA_VERSION))
    ∧ (fetchAvailableCudaVersions redistribVersions archiveVersions opensourceVersions).Nodup
    ∧ (fetchAvailableCudaVersions redistribVersions archiveVersions
        opensourceVersions).Pairwise (fun x y => compareVersions x y ≤ 0) :=
  ⟨fun v => mem_fetchAvailableCudaVersions _ _ _ v,
   nodup_fetchAvailableCudaVersions _ _ _,
   pairwise_fetchAvailableCudaVersions _ _ _⟩

/-- C10: whatever the three discovery sources returned, the merged
catalog contains the five static legacy versions (none is filtered
out, each being at least the minimum supported version), hence is never
empty, and resolving the specifier `"latest"` on it always yields a
version, never a not-found. -/
theorem catalog_contains_legacy_and_latest_succeeds (r a o : List String) :
    "10.0" ∈ fetchAvailableCudaVersions r a o
    ∧ "10.1" ∈ fetchAvailableCudaVersions r a o
    ∧ "10.1.1" ∈ fetchAvailableCudaVersions r a o
    ∧ "10.1.2" ∈ fetchAvailableCudaVersions r a o
    ∧ "10.2" ∈ fetchAvailableCudaVersions r a o
    ∧ fetchAvailableCudaVersions r a o ≠ []
    ∧ (findCudaVersion (fetchAvailableCudaVersions r a o) "latest").isSome = true := by
  have h100 := (mem_fetchAvailableCudaVersions r a o "10.0").mpr
    ⟨Or.inr (Or.inr (Or.inr (by decide))), by decide⟩
  have h101 := (mem_fetchAvailableCudaVersions r a o "10.1").mpr
    ⟨Or.inr (Or.inr (Or.inr (by decide))), by decide⟩
  have h1011 := (mem_fetchAvailableCudaVersions r a o "10.1.1").mpr
    ⟨Or.inr (Or.inr (Or.inr (by decide))), by decide⟩
  have h1012 := (mem_fetchAvailableCudaVersions r a o "10.1.2").mpr
    ⟨Or.inr (Or.inr (Or.inr (by decide))), by decide⟩
  have h102 := (mem_fetchAvailableCudaVersions r a o "10.2").mpr
    ⟨Or.inr (Or.inr (Or.inr (by decide))), by decide⟩
  have hne : fetchAvailableCudaVersions r a o ≠ [] := List.ne_nil_of_mem h100
  refine ⟨h100, h101, h1011, h1012, h102, hne, ?_⟩
  have hlatest : findCudaVersion (fetchAvailableCudaVersions r a o) "latest" =
      (fetchAvailableCudaVersions r a o).getLast? := by
    simp [findCudaVersion]
  rw [hlatest, List.getLast?_isSome]
  exact hne

/-- C9: `normalizeCudaVersion` keeps only `major.minor` when the major
component parses to a number ≤ 10, and returns the input unchanged when
it parses to a number ≥ 11. -/
theorem normalizeCudaVersion_truncation (version : String) (m : Nat)
    (hm : jsParseIntNat ((splitOnDotChars version.toList).headD []) = some m) :
    (m ≤ 10 →
        normalizeCudaVersion version = joinDots ((splitOnDotChars version.toList).take 2))
    ∧ (11 ≤ m → normalizeCudaVersion version = version) := by
  simp only [normalizeCudaVersion, hm]
  constructor
  · intro h
    rw [if_pos h]
  · intro h
    rw [if_neg (by omega)]

/-- Witness for C9 at the spec's examples. -/
theorem normalizeCudaVersion_truncation_witness :
    normalizeCudaVersion "10.2.89" = "10.2"
    ∧ normalizeCudaVersion "11.0.3" = "11.0.3" := by
  have h1 := (normalizeCudaVersion_truncation "10.2.89" 10 (by decide)).1 (by decide)
  have h2 := (normalizeCudaVersion_truncation "11.0.3" 11 (by decide)).2 (by decide)
  exact ⟨h1.trans (by decide), h2⟩

/-- C8: `getCudaInstallerUrl` rejects — independently of the manifest
fetch outcome, hence before any table lookup or network fetch — every
version numerically below the minimum supported version with the
unsupported-version error, and (once the support check has passed)
every version with major ≤ 10 requested for Linux on the ARM64 server
architecture with the unsupported-platform error. -/
theorem locate_support_and_gate (version : String) (os : OS) (arch : Arch)
    (md5Fetch : Except String (List (String × String))) :
    (compareVersions version START_SUPPORTED_CUDA_VERSION < 0 →
        getCudaInstallerUrl version os arch md5Fetch =
          .error (.unsupportedVersion version))
    ∧ (0 ≤ compareVersions version START_SUPPORTED_CUDA_VERSION →
        majorVersionLe10 version = true →
        getCudaInstallerUrl version OS.LINUX Arch.ARM64_SBSA md5Fetch =
          .error (.unsupportedPlatform version)) := by
  constructor
  · intro h
    simp [getCudaInstallerUrl, h]
  · intro h1 h2
    unfold getCudaInstallerUrl
    rw [if_neg (by omega), if_pos ⟨h2, rfl, rfl⟩]

/-- Witness for C8. -/
theorem locate_support_and_gate_witness :
    getCudaInstallerUrl "9.2" OS.LINUX Arch.X86_64 (.error "down") =
      .error (.unsupportedVersion "9.2")
    ∧ getCudaInstallerUrl "10.0" OS.LINUX Arch.ARM64_SBSA (.error "down") =
      .error (.unsupportedPlatform "10.0") :=
  ⟨(locate_support_and_gate "9.2" OS.LINUX Arch.X86_64 (.error "down")).1 (by decide),
   (locate_support_and_gate "10.0" OS.LINUX Arch.ARM64_SBSA (.error "down")).2
     (by decide) (by decide)⟩

/-- C2: for a version that is a key of the legacy link table and has
passed the support and architecture checks, `getCudaInstallerUrl`
returns the table's URL field for the requested (os, arch) pair
verbatim — `linuxX86Url` for Linux/x86-64, `linuxArm64Url` for
Linux/ARM64, `windowsUrl` for Windows regardless of architecture — and
only when that field is non-empty; the `md5Fetch` argument is
arbitrary (it may even be a failed fetch), so no manifest fetch takes
place.  When the entry exists but the specific field is empty, the
result is that of the later steps (`legacyFallbackOrModern`) instead
of an error. -/
theorem locate_legacy_table_direct (version : String) (link : CudaLink)
    (md5Fetch : Except String (List (String × String)))
    (hlink : CUDA_LINKS version = some link)
    (hsup : 0 ≤ compareVersions version START_SUPPORTED_CUDA_VERSION) :
    (link.linuxX86Url ≠ "" →
        getCudaInstallerUrl version OS.LINUX Arch.X86_64 md5Fetch = .ok link.linuxX86Url)
    ∧ (link.linuxX86Url = "" →
        getCudaInstallerUrl version OS.LINUX Arch.X86_64 md5Fetch =
          legacyFallbackOrModern version OS.LINUX Arch.X86_64 md5Fetch)
    ∧ (majorVersionLe10 version = false → link.linuxArm64Url ≠ "" →
        getCudaInstallerUrl version OS.LINUX Arch.ARM64_SBSA md5Fetch =
          .ok link.linuxArm64Url)
    ∧ (majorVersionLe10 version = false → link.linuxArm64Url = "" →
        getCudaInstallerUrl version OS.LINUX Arch.ARM64_SBSA md5Fetch =
          legacyFallbackOrModern version OS.LINUX Arch.ARM64_SBSA md5Fetch)
    ∧ (∀ arch : Arch, link.windowsUrl ≠ "" →
        getCudaInstallerUrl version OS.WINDOWS arch md5Fetch = .ok link.windowsUrl)
    ∧ (∀ arch : Arch, link.windowsUrl = "" →
        getCudaInstallerUrl version OS.WINDOWS arch md5Fetch =
          legacyFallbackOrModern version OS.WINDOWS arch md5Fetch) := by
  have hnotlt : ¬compareVersions version START_SUPPORTED_CUDA_VERSION < 0 := by omega
  refine ⟨?_, ?_, ?_, ?_, ?_, ?_⟩
  · intro hne
    unfold getCudaInstallerUrl
    rw [if_neg hnotlt, if_neg (by simp)]
    simp [hlink, hne]
  · intro hempty
    unfold getCudaInstallerUrl
    rw [if_neg hnotlt, if_neg (by simp)]
    simp [hlink, hempty]
  · intro hmaj hne
    unfold getCudaInstallerUrl
    rw [if_neg hnotlt, if_neg (by simp [hmaj])]
    simp [hlink, hne]
  · intro hmaj hempty
    unfold getCudaInstallerUrl
    rw [if_neg hnotlt, if_neg (by simp [hmaj])]
    simp [hlink, hempty]
  · intro arch hne
    unfold getCudaInstallerUrl
    rw [if_neg hnotlt, if_neg (by simp)]
    simp [hlink, hne]
  · intro arch hempty
    unfold getCudaInstallerUrl
    rw [if_neg hnotlt, if_neg (by simp)]
    simp [hlink, hempty]

/-- Witness for C2: the spec's example, with a failed manifest fetch
to make the absence of a fetch observable. -/
theorem locate_legacy_table_direct_witness :
    getCudaInstallerUrl "10.0" OS.LINUX Arch.X86_64 (.error "down") =
      .ok "http://developer.download.nvidia.com/compute/cuda/10.0/Prod/patches/1/cuda_10.0.130.1_linux.run" := by
  have h := (locate_legacy_table_direct "10.0"
    ⟨"https://developer.download.nvidia.com/compute/cuda/10.0/Prod/docs/sidebar/md5sum.txt",
     "http://developer.download.nvidia.com/compute/cuda/10.0/Prod/patches/1/cuda_10.0.130.1_linux.run",
     "",
     "https://developer.nvidia.com/compute/cuda/10.0/Prod/local_installers/cuda_10.0.130_411.31_win10"⟩
    (.error "down") (by decide) (by decide)).1 (by decide)
  exact h

theorem modernPath_error_kinds (version : String) (os : OS) (arch : Arch)
    (md5Fetch : Except String (List (String × String))) :
    ∀ e, modernPath version os arch md5Fetch = Except.error e →
      e.isMissingTableEntry = false := by
  intro e he
  unfold modernPath at he
  cases md5Fetch with
  | error msg =>
    simp only [Except.error.injEq] at he
    subst he
    rfl
  | ok md5sums =>
    simp only at he
    split at he
    · exact absurd he (by simp)
    · simp only [Except.error.injEq] at he
      subst he
      rfl

theorem legacyFallbackOrModern_no_missing (version : String) (os : OS) (arch : Arch)
    (md5Fetch : Except String (List (String × String))) (link : CudaLink)
    (hlink : CUDA_LINKS version = some link) :
    ∀ e, legacyFallbackOrModern version os arch md5Fetch = Except.error e →
      e.isMissingTableEntry = false := by
  intro e he
  unfold legacyFallbackOrModern at he
  rw [hlink] at he
  split_ifs at he
  exact modernPath_error_kinds version os arch md5Fetch e he

/-- C4 counterexample: the version "10.3" passes the support check
(`10.3 ≥ 10.0`), has major component ≤ 10, passes the architecture gate
on Linux/x86-64 — yet the legacy-fallback step looks it up in the
legacy link table, finds no entry, and crashes (the modelled
missing-table-entry error), so the missing-entry branch is reachable. -/
theorem locateLegacyMissingEntryReachable :
    0 ≤ compareVersions "10.3" START_SUPPORTED_CUDA_VERSION
    ∧ majorVersionLe10 "10.3" = true
    ∧ getCudaInstallerUrl "10.3" OS.LINUX Arch.X86_64 (.ok []) =
        .error (.missingTableEntry "10.3") := by
  refine ⟨by decide, by decide, by decide⟩

/-- C4 as amended: for every version that is a key of the legacy link
table, `getCudaInstallerUrl` never reaches the missing-table-entry
branch, whatever the OS, architecture and manifest fetch outcome; for
versions with major ≤ 10 passing the checks but absent from the table,
that branch is reachable (see the counterexample). -/
theorem locate_no_missing_entry_for_table_keys (version : String) (link : CudaLink)
    (os : OS) (arch : Arch) (md5Fetch : Except String (List (String × String)))
    (hlink : CUDA_LINKS version = some link) :
    ∀ e, getCudaInstallerUrl version os arch md5Fetch = Except.error e →
      e.isMissingTableEntry = false := by
  intro e he
  unfold getCudaInstallerUrl at he
  rw [hlink] at he
  split_ifs at he
  · simp only [Except.error.injEq] at he
    subst he
    rfl
  · simp only [Except.error.injEq] at he
    subst he
    rfl
  · simp only at he
    split_ifs at he
    exact legacyFallbackOrModern_no_missing version os arch md5Fetch link hlink e he

/-- Witness for the amended C4, applied at the table key "10.0" where
the gate error is the produced error. -/
theorem locate_no_missing_entry_for_table_keys_witness :
    CudaError.isMissingTableEntry (.unsupportedPlatform "10.0") = false :=
  locate_no_missing_entry_for_table_keys "10.0"
    ⟨"https://developer.download.nvidia.com/compute/cuda/10.0/Prod/docs/sidebar/md5sum.txt",
     "http://developer.download.nvidia.com/compute/cuda/10.0/Prod/patches/1/cuda_10.0.130.1_linux.run",
     "",
     "https://developer.nvidia.com/compute/cuda/10.0/Prod/local_installers/cuda_10.0.130_411.31_win10"⟩
    OS.LINUX Arch.ARM64_SBSA (.error "down") (by decide)
    (.unsupportedPlatform "10.0") (by decide)

/-- C3: the Windows branch of the modern path selects the first
manifest filename (in iteration order) ending in `_windows.exe`,
short-circuiting the scan there; if none exists it selects the last
filename ending in `_win10.exe` encountered during the scan (later
candidates overwrite earlier ones); if neither suffix occurs it fails
with the no-matching-installer error.  The last conjunct connects the
branch to `getCudaInstallerUrl` once the earlier steps fall through. -/
theorem locate_windows_branch (version : String) (arch : Arch)
    (md5sums : List (String × String)) :
    (((md5sums.map Prod.fst).find? isWindowsExe).isSome = true →
        windowsTarget (md5sums.map Prod.fst) = (md5sums.map Prod.fst).find? isWindowsExe)
    ∧ ((md5sums.map Prod.fst).find? isWindowsExe = none →
        windowsTarget (md5sums.map Prod.fst) =
          ((md5sums.map Prod.fst).filter isWin10Exe).getLast?)
    ∧ (∀ f, windowsTarget (md5sums.map Prod.fst) = some f →
        modernPath version OS.WINDOWS arch (.ok md5sums) =
          .ok (getDownloadUrl version "local_installers" f))
    ∧ (windowsTarget (md5sums.map Prod.fst) = none →
        modernPath version OS.WINDOWS arch (.ok md5sums) =
          .error (.noMatchingInstaller version OS.WINDOWS arch))
    ∧ (0 ≤ compareVersions version START_SUPPORTED_CUDA_VERSION →
        majorVersionLe10 version = false →
        CUDA_LINKS version = none →
        getCudaInstallerUrl version OS.WINDOWS arch (.ok md5sums) =
          modernPath version OS.WINDOWS arch (.ok md5sums)) := by
  refine ⟨?_, ?_, ?_, ?_, ?_⟩
  · intro h
    obtain ⟨f, hf⟩ := Option.isSome_iff_exists.mp h
    rw [hf]
    exact windowsScanLoop_find _ none f hf
  · intro h
    have hs := windowsScanLoop_no_find _ h none
    unfold windowsTarget
    rw [hs]
    cases ((md5sums.map Prod.fst).filter isWin10Exe).getLast? <;> rfl
  · intro f hf
    unfold modernPath
    simp only
    rw [hf]
  · intro hf
    unfold modernPath
    simp only
    rw [hf]
  · intro hsup hmaj htab
    unfold getCudaInstallerUrl
    rw [htab, if_neg (by omega), if_neg (by simp)]
    unfold legacyFallbackOrModern
    rw [if_neg (by simp), if_neg (by simp [hmaj])]

/-- Witness for C3: a manifest holding `_win10.exe` entries around a
`_windows.exe` entry; the `_windows.exe` filename wins. -/
theorem locate_windows_branch_witness :
    windowsTarget ([("a_win10.exe", "m1"), ("b_windows.exe", "m2"),
        ("c_win10.exe", "m3")].map Prod.fst) = some "b_windows.exe"
    ∧ getCudaInstallerUrl "12.0.0" OS.WINDOWS Arch.X86_64
        (.ok [("a_win10.exe", "m1"), ("b_windows.exe", "m2"), ("c_win10.exe", "m3")]) =
      .ok "https://developer.download.nvidia.com/compute/cuda/12.0.0/local_installers/b_windows.exe" := by
  have h := locate_windows_branch "12.0.0" Arch.X86_64
    [("a_win10.exe", "m1"), ("b_windows.exe", "m2"), ("c_win10.exe", "m3")]
  have hfind : List.find? isWindowsExe ([("a_win10.exe", "m1"), ("b_windows.exe", "m2"),
      ("c_win10.exe", "m3")].map Prod.fst) = some "b_windows.exe" := by decide
  have h1 : windowsTarget ([("a_win10.exe", "m1"), ("b_windows.exe", "m2"),
      ("c_win10.exe", "m3")].map Prod.fst) = some "b_windows.exe" :=
    (h.1 (by decide)).trans hfind
  have h5 := h.2.2.2.2 (by decide) (by decide) (by decide)
  have h3 := h.2.2.1 "b_windows.exe" h1
  exact ⟨h1, (h5.trans h3).trans (by decide)⟩

/-- C7: the Linux branch of `getCudaInstallerUrl` (reached when the
version passed the checks and was not resolved by the static table)
matches manifest filenames against
`cuda_<version>_<driverversion>_linux.run` — with `_sbsa` before
`.run` for the ARM64 server architecture — takes the first match in
iteration order, and returns the fixed download host URL with the
version, the `local_installers` directory segment and the matched
filename. -/
theorem locate_linux_branch (version : String) (arch : Arch)
    (md5sums : List (String × String))
    (hsup : 0 ≤ compareVersions version START_SUPPORTED_CUDA_VERSION)
    (hmaj : majorVersionLe10 version = false)
    (htab : CUDA_LINKS version = none) :
    (∀ f, (md5sums.map Prod.fst).find?
          (fun g => linuxRunMatch version
            (match arch with | Arch.X86_64 => false | Arch.ARM64_SBSA => true) g) = some f →
        getCudaInstallerUrl version OS.LINUX arch (.ok md5sums) =
          .ok (getDownloadUrl version "local_installers" f))
    ∧ ((md5sums.map Prod.fst).find?
          (fun g => linuxRunMatch version
            (match arch with | Arch.X86_64 => false | Arch.ARM64_SBSA => true) g) = none →
        getCudaInstallerUrl version OS.LINUX arch (.ok md5sums) =
          .error (.noMatchingInstaller version OS.LINUX arch)) := by
  have hred : getCudaInstallerUrl version OS.LINUX arch (.ok md5sums) =
      modernPath version OS.LINUX arch (.ok md5sums) := by
    unfold getCudaInstallerUrl
    rw [htab, if_neg (by omega), if_neg (by simp [hmaj])]
    unfold legacyFallbackOrModern
    rw [if_neg (by simp [hmaj]), if_neg (by simp [hmaj])]
  constructor
  · intro f hf
    rw [hred]
    unfold modernPath
    simp only
    rw [hf]
  · intro hf
    rw [hred]
    unfold modernPath
    simp only
    rw [hf]

/-- Witness for C7 at the spec's example: a manifest containing
`cuda_11.2.0_460.27.04_linux.run` for version "11.2.0" on
Linux/x86-64 yields the URL ending with that filename under
`local_installers`. -/
theorem locate_linux_branch_witness :
    linuxRunMatch "11.2.0" false "cuda_11.2.0_460.27.04_linux.run" = true
    ∧ getCudaInstallerUrl "11.2.0" OS.LINUX Arch.X86_64
        (.ok [("cuda_11.2.0_460.27.04_linux.run", "abc")]) =
      .ok "https://developer.download.nvidia.com/compute/cuda/11.2.0/local_installers/cuda_11.2.0_460.27.04_linux.run" := by
  have h := (locate_linux_branch "11.2.0" Arch.X86_64
    [("cuda_11.2.0_460.27.04_linux.run", "abc")] (by decide) (by decide) (by decide)).1
    "cuda_11.2.0_460.27.04_linux.run" (by decide)
  exact ⟨by decide, h.trans (by decide)⟩
